import Mathlib

/-!
Verification of the Win32 Direct2D immediate-mode UI engine (ui.cpp).

The definitions below are a shallow embedding of the engine's core:
string hashing and per-frame ID deduplication, the panel arena and
builder, the row/column layout pass, the size-override store, the
divider-resize resolution, click detection, and the render-primitive
emitter.  Strings are modelled as lists of byte values (all names used
by the program are ASCII); 32-bit wraparound is modelled with `% 2^32`;
C `float` quantities (`flex_grow`) are modelled as exact rationals, with
the float-to-int cast modelled as truncation toward zero.
-/

namespace UIEngine

/-- 2^32, the modulus of the 32-bit hash arithmetic. -/
def M32 : Nat := 4294967296

/-- One step of the djb2-style hash: `hash = ((hash << 5) + hash) + c`,
on 32-bit integers, i.e. `hash * 33 + c` modulo 2^32. -/
def hashStep (h c : Nat) : Nat := (h * 33 + c) % M32

/-- Hash of the bytes of a (non-null) string, from `UI_HashString`:
seed 5381, then `hash * 33 + byte` over the bytes in order. -/
def hashBytes (s : List Nat) : Nat := s.foldl hashStep 5381

/-- `UI_HashString`: a null pointer hashes to 0, otherwise the bytes are
folded with the djb2 step starting from 5381. -/
def UI_HashString : Option (List Nat) → Nat
  | none => 0
  | some s => hashBytes s

theorem hashBytes_append (s t : List Nat) :
    hashBytes (s ++ t) = t.foldl hashStep (hashBytes s) := by
  simp [hashBytes, List.foldl_append]

theorem hashStep_lt (h c : Nat) : hashStep h c < M32 :=
  Nat.mod_lt _ (by decide)

theorem foldl_hashStep_lt (l : List Nat) (a : Nat) (ha : a < M32) :
    l.foldl hashStep a < M32 := by
  induction l generalizing a with
  | nil => exact ha
  | cons c rest ih => exact ih _ (hashStep_lt a c)

theorem hashBytes_lt (s : List Nat) (h : s ≠ []) : hashBytes s < M32 := by
  match s with
  | c :: rest => exact foldl_hashStep_lt rest _ (hashStep_lt 5381 c)

/-- Appending the dedup suffix "##0" (bytes 35, 35, 48) always changes the
hash: modulo 32 the three steps add 22, so the two values differ mod 32. -/
theorem hashBytes_dedup_suffix_ne (s : List Nat) :
    hashBytes (s ++ [35, 35, 48]) ≠ hashBytes s := by
  have happ : hashBytes (s ++ [35, 35, 48])
      = hashStep (hashStep (hashStep (hashBytes s) 35) 35) 48 :=
    hashBytes_append s [35, 35, 48]
  rw [happ]
  simp only [hashStep, M32]
  omega

/-! ### Per-frame ID deduplication (`UI_Generate_Id`) -/

/-- One entry of the per-frame used-ID table: parallel arrays
`used_ids[i]` / `used_id_counts[i]` in the source. -/
structure UsedId where
  id : Nat
  count : Nat
deriving Repr, DecidableEq

def MAX_UI_TEXT_LENGTH : Nat := 256

/-- ASCII decimal digits of a natural number (the `%d` rendering). -/
def natToDecimal (n : Nat) : List Nat :=
  (Nat.toDigits 10 n).map Char.toNat

/-- The `snprintf(unique_str, sizeof(unique_str), "%s##%d", str, count)`
rendering: the formatted string truncated to `MAX_UI_TEXT_LENGTH - 1` bytes. -/
def uniqueStr (s : List Nat) (count : Nat) : List Nat :=
  (s ++ [35, 35] ++ natToDecimal count).take (MAX_UI_TEXT_LENGTH - 1)

/-- The duplicate-scan loop of `UI_Generate_Id`: find the first table entry
whose id equals `base`; on a hit, read its count, increment the stored
count, and return the hash of the "%s##%d" string. -/
def genIdLoop (base : Nat) (s : List Nat) : List UsedId → Option (Nat × List UsedId)
  | [] => none
  | e :: rest =>
    if e.id = base then
      some (hashBytes (uniqueStr s e.count), { e with count := e.count + 1 } :: rest)
    else
      match genIdLoop base s rest with
      | some (i, rest') => some (i, e :: rest')
      | none => none

/-- `UI_Generate_Id`: returns the generated id together with the updated
used-ID table.  First use of a name is tracked (if the table has room,
capacity 1024) and returns the base hash; later uses rehash with "##count". -/
def UI_Generate_Id (tbl : List UsedId) (s : List Nat) : Nat × List UsedId :=
  let base := hashBytes s
  match genIdLoop base s tbl with
  | some r => r
  | none =>
    if tbl.length < 1024 then (base, tbl ++ [⟨base, 0⟩]) else (base, tbl)

/-- Run a frame's sequence of `UI_Generate_Id` calls, collecting the ids. -/
def genIds (tbl : List UsedId) : List (List Nat) → List Nat
  | [] => []
  | s :: rest =>
    let r := UI_Generate_Id tbl s
    r.1 :: genIds r.2 rest

/-- The used-ID table after `UI_BeginFrame_WithTime`, which executes
`ui->used_id_count = 0`: the per-frame table is cleared at frame start. -/
def UI_BeginFrame_used_ids (_prev : List UsedId) : List UsedId := []

theorem genIdLoop_eq_none (base : Nat) (s : List Nat) (tbl : List UsedId)
    (hfresh : ∀ e ∈ tbl, e.id ≠ base) : genIdLoop base s tbl = none := by
  induction tbl with
  | nil => rfl
  | cons e rest ih =>
    have hne : e.id ≠ base := hfresh e (List.mem_cons_self e rest)
    simp only [genIdLoop, if_neg hne]
    rw [ih (fun x hx => hfresh x (List.mem_cons_of_mem e hx))]

theorem genIdLoop_append_hit (base : Nat) (s : List Nat) (tbl : List UsedId)
    (c : Nat) (hfresh : ∀ e ∈ tbl, e.id ≠ base) :
    genIdLoop base s (tbl ++ [⟨base, c⟩])
      = some (hashBytes (uniqueStr s c), tbl ++ [⟨base, c + 1⟩]) := by
  induction tbl with
  | nil => simp [genIdLoop]
  | cons e rest ih =>
    have hne : e.id ≠ base := hfresh e (List.mem_cons_self e rest)
    simp only [List.cons_append, genIdLoop, if_neg hne, List.append_eq]
    rw [ih (fun x hx => hfresh x (List.mem_cons_of_mem e hx))]

/-! ### Claims C7 and C2 -/

/-- C7 counterexample: the claim says the empty or absent name hashes to 0,
but `UI_HashString` on the empty (non-null) string returns the seed 5381. -/
theorem C7_counterexample : UI_HashString (some []) ≠ 0 := by decide

/-- C7 (amended): the hash is the deterministic djb2-style recurrence
`h = h * 33 + byte` over the bytes in order, seeded at 5381, reduced
modulo 2^32 at every step (so every nonempty hash is a 32-bit value);
only the absent (null) name hashes to 0, while the empty name hashes to
the seed 5381. -/
theorem C7_hash_characterization :
    (∀ s b, hashBytes (s ++ [b]) = (hashBytes s * 33 + b) % M32) ∧
    (∀ s, s ≠ [] → hashBytes s < M32) ∧
    hashBytes [] = 5381 ∧
    UI_HashString none = 0 ∧
    UI_HashString (some []) = 5381 := by
  refine ⟨fun s b => ?_, hashBytes_lt, rfl, rfl, rfl⟩
  rw [hashBytes_append]
  rfl

/-- C7 witness: the amended characterization applied at the one-byte
string `"a"` (byte 97). -/
theorem C7_witness :
    hashBytes ([] ++ [97]) = (hashBytes [] * 33 + 97) % M32 ∧
    ([97] : List Nat) ≠ [] ∧ hashBytes [97] < M32 :=
  ⟨C7_hash_characterization.1 [] 97, by decide,
   C7_hash_characterization.2.1 [97] (by decide)⟩

/-- A 255-byte name: long enough that the "%s##%d" rehash string is
truncated by `snprintf` back to the original name. -/
def longName : List Nat := List.replicate 255 97

set_option maxRecDepth 40000 in
/-- C2 counterexample: for the 255-byte name `longName`, generating an ID
twice in one frame yields the SAME id both times, because the
deduplicated string "name##0" is truncated to 255 bytes, which is the
original name again.  The claim's guarantee of two different IDs fails. -/
theorem C2_counterexample :
    (UI_Generate_Id (UI_Generate_Id [] longName).2 longName).1
      = (UI_Generate_Id [] longName).1 := by decide

/-- C2 (amended): provided the name is at most 252 bytes (so the "##0"
rehash suffix survives the 255-byte `snprintf` truncation) and the
used-ID table still has room (fewer than 1024 tracked entries) and does
not already contain the name's base hash, generating a panel ID twice
with the same name within one frame yields two different IDs: the first
call returns `hash(name)` and the second returns `hash(name ++ "##0")`,
which provably differs from the first.  Moreover the per-frame table is
cleared at frame start, so the sequence of IDs a frame generates does not
depend on any previous frame's table — in particular, generating a name
once per frame in the same builder sequence yields the same ID every
frame. -/
theorem C2_id_generation (tbl : List UsedId) (s : List Nat)
    (hlen : s.length ≤ 252)
    (hroom : tbl.length < 1024)
    (hfresh : ∀ e ∈ tbl, e.id ≠ hashBytes s) :
    (UI_Generate_Id tbl s).1 = hashBytes s ∧
    (UI_Generate_Id (UI_Generate_Id tbl s).2 s).1 = hashBytes (s ++ [35, 35, 48]) ∧
    (UI_Generate_Id (UI_Generate_Id tbl s).2 s).1 ≠ (UI_Generate_Id tbl s).1 ∧
    (∀ t1 t2 : List UsedId, ∀ names : List (List Nat),
      genIds (UI_BeginFrame_used_ids t1) names = genIds (UI_BeginFrame_used_ids t2) names) := by
  have hnone : genIdLoop (hashBytes s) s tbl = none := genIdLoop_eq_none _ s tbl hfresh
  have hfirst : UI_Generate_Id tbl s = (hashBytes s, tbl ++ [⟨hashBytes s, 0⟩]) := by
    simp only [UI_Generate_Id, hnone, if_pos hroom]
  have huniq : uniqueStr s 0 = s ++ [35, 35, 48] := by
    have hdig : natToDecimal 0 = [48] := by decide
    have hcat : s ++ [35, 35] ++ natToDecimal 0 = s ++ [35, 35, 48] := by
      rw [hdig]
      simp
    rw [uniqueStr, hcat]
    exact List.take_of_length_le (by simp [MAX_UI_TEXT_LENGTH]; omega)
  have hhit : genIdLoop (hashBytes s) s (tbl ++ [⟨hashBytes s, 0⟩])
      = some (hashBytes (s ++ [35, 35, 48]), tbl ++ [⟨hashBytes s, 1⟩]) := by
    rw [genIdLoop_append_hit _ s tbl 0 hfresh, huniq]
  have hsecond : (UI_Generate_Id (UI_Generate_Id tbl s).2 s).1
      = hashBytes (s ++ [35, 35, 48]) := by
    rw [hfirst]
    simp only [UI_Generate_Id, hhit]
  refine ⟨by rw [hfirst], hsecond, ?_, fun t1 t2 names => rfl⟩
  rw [hsecond, hfirst]
  exact hashBytes_dedup_suffix_ne s

/-- C2 witness: the amended theorem applied at the name "Save"
(bytes 83, 97, 118, 101) starting from an empty table. -/
theorem C2_witness :
    ([83, 97, 118, 101] : List Nat).length ≤ 252 ∧
    ([] : List UsedId).length < 1024 ∧
    (UI_Generate_Id (UI_Generate_Id [] [83, 97, 118, 101]).2 [83, 97, 118, 101]).1
      ≠ (UI_Generate_Id [] [83, 97, 118, 101]).1 :=
  ⟨by decide, by decide,
   (C2_id_generation [] [83, 97, 118, 101] (by decide) (by decide)
     (by intro e he; cases he)).2.2.1⟩

/-! ### Shared data model: rectangles, styles -/

/-- `UI_RectI`: an integer pixel box. -/
structure RectI where
  x : Int
  y : Int
  w : Int
  h : Int
deriving Repr, DecidableEq

/-- `UI_Style`: per-panel layout and visual attributes.  `flex_grow` and
`flex_shrink` are C floats, modelled as exact rationals. -/
structure Style where
  color : Nat
  min_w : Int
  max_w : Int
  min_h : Int
  max_h : Int
  pref_w : Int
  pref_h : Int
  pad_l : Int
  pad_t : Int
  pad_r : Int
  pad_b : Int
  flex_grow : ℚ
  flex_shrink : ℚ
  flex_basis : Int
  direction : Int
  gap : Int
  resizable : Int
  resize_hitbox_padding : Int
deriving Repr, DecidableEq

/-! ### Interaction state and click detection (claim C5) -/

/-- The interaction fields consulted by click detection: ids are 0 when
no widget holds the slot. -/
structure Interaction where
  hot_widget : Nat
  hot_widget_prev : Nat
  active_widget : Nat
  active_widget_prev : Nat
deriving Repr, DecidableEq

/-- `UI_Is_Point_In_Rect`: half-open containment test. -/
def UI_Is_Point_In_Rect (x y : Int) (r : RectI) : Bool :=
  decide (x ≥ r.x) && decide (x < r.x + r.w) && decide (y ≥ r.y) && decide (y < r.y + r.h)

/-- The click decision inside `UI_Button`: `is_active` (previous frame's
active widget equals the button id) and the left-mouse release edge,
confirmed by `is_hot` (current frame's hot widget equals the id). -/
def UI_Button_clicked (inter : Interaction) (mouseReleasedLeft : Bool) (id : Nat) : Bool :=
  let isHot := inter.hot_widget == id
  let isActive := inter.active_widget_prev == id
  if isActive && mouseReleasedLeft then (if isHot then true else false) else false

/-- C5: a button registers a click exactly when the left-mouse-release
edge fires while the previous frame's active widget is the button's id
and the current frame's hot widget is that same id; in particular, if the
current hot widget is not the button (the pointer left its bounds before
release), no click is registered even though the button was active. -/
theorem C5_button_click (inter : Interaction) (released : Bool) (id : Nat) :
    (UI_Button_clicked inter released id = true ↔
      (inter.active_widget_prev = id ∧ released = true ∧ inter.hot_widget = id)) ∧
    (inter.hot_widget ≠ id → UI_Button_clicked inter released id = false) := by
  constructor
  · simp only [UI_Button_clicked]
    cases hh : (inter.hot_widget == id) <;> cases ha : (inter.active_widget_prev == id) <;>
      cases released <;>
      simp_all [beq_iff_eq]
  · intro hne
    simp only [UI_Button_clicked]
    have : (inter.hot_widget == id) = false := beq_eq_false_iff_ne.mpr hne
    simp [this]

/-- C5 witness: a widget that was active (id 7) but is no longer hot at
the release edge does not register a click. -/
theorem C5_witness :
    ((⟨0, 0, 0, 7⟩ : Interaction).hot_widget ≠ 7) ∧
    UI_Button_clicked ⟨0, 0, 0, 7⟩ true 7 = false :=
  ⟨by decide, (C5_button_click ⟨0, 0, 0, 7⟩ true 7).2 (by decide)⟩

/-! ### Size-override store (claims C10 and C4) -/

/-- `UI_Size_Override`: one entry of the persistent size-override table. -/
structure SizeOverride where
  panel_id : Nat
  pref_w : Int
  pref_h : Int
deriving Repr, DecidableEq

/-- The update scan of `UI_Set_Size_Override`: the first entry whose
`panel_id` matches is updated in place — each dimension only if the
passed value is non-negative — and the scan stops there. -/
def setOverrideLoop (pid : Nat) (w h : Int) : List SizeOverride → Option (List SizeOverride)
  | [] => none
  | o :: rest =>
    if o.panel_id = pid then
      some ({ o with pref_w := if w ≥ 0 then w else o.pref_w,
                     pref_h := if h ≥ 0 then h else o.pref_h } :: rest)
    else
      match setOverrideLoop pid w h rest with
      | some rest' => some (o :: rest')
      | none => none

/-- `UI_Set_Size_Override`: update the existing entry if present,
otherwise append a new entry (storing `w` and `h` exactly as passed,
including -1 sentinels) when the 32-entry table has room. -/
def UI_Set_Size_Override (s : List SizeOverride) (pid : Nat) (w h : Int) : List SizeOverride :=
  match setOverrideLoop pid w h s with
  | some s' => s'
  | none => if s.length < 32 then s ++ [⟨pid, w, h⟩] else s

/-- `UI_Get_Size_Override_W`: first matching entry's width, or -1. -/
def UI_Get_Size_Override_W (s : List SizeOverride) (pid : Nat) : Int :=
  match s.find? (fun o => o.panel_id == pid) with
  | some o => o.pref_w
  | none => -1

/-- `UI_Get_Size_Override_H`: first matching entry's height, or -1. -/
def UI_Get_Size_Override_H (s : List SizeOverride) (pid : Nat) : Int :=
  match s.find? (fun o => o.panel_id == pid) with
  | some o => o.pref_h
  | none => -1

theorem setOverrideLoop_found (pid : Nat) (w h w0 h0 : Int) :
    ∀ s : List SizeOverride,
      s.find? (fun o => o.panel_id == pid) = some ⟨pid, w0, h0⟩ →
      ∃ s', setOverrideLoop pid w h s = some s' ∧
        s'.find? (fun o => o.panel_id == pid)
          = some ⟨pid, if w ≥ 0 then w else w0, if h ≥ 0 then h else h0⟩ := by
  intro s
  induction s with
  | nil => intro hfind; cases hfind
  | cons o rest ih =>
    intro hfind
    rw [List.find?_cons] at hfind
    cases hb : (o.panel_id == pid) with
    | true =>
      rw [hb] at hfind
      have ho : o = ⟨pid, w0, h0⟩ := by injection hfind
      subst ho
      exact ⟨⟨pid, if w ≥ 0 then w else w0, if h ≥ 0 then h else h0⟩ :: rest,
        by simp [setOverrideLoop],
        by simp [List.find?_cons]⟩
    | false =>
      rw [hb] at hfind
      obtain ⟨rest', hr, hfind'⟩ := ih hfind
      have hne : ¬ o.panel_id = pid := by
        intro hc
        rw [hc] at hb
        simp at hb
      refine ⟨o :: rest', ?_, ?_⟩
      · simp only [setOverrideLoop, if_neg hne, hr]
      · rw [List.find?_cons, hb, hfind']

theorem setOverrideLoop_not_found (pid : Nat) (w h : Int) :
    ∀ s : List SizeOverride,
      s.find? (fun o => o.panel_id == pid) = none →
      setOverrideLoop pid w h s = none := by
  intro s
  induction s with
  | nil => intro _; rfl
  | cons o rest ih =>
    intro hfind
    rw [List.find?_cons] at hfind
    cases hb : (o.panel_id == pid) with
    | true => rw [hb] at hfind; cases hfind
    | false =>
      rw [hb] at hfind
      have hne : ¬ o.panel_id = pid := by
        intro hc
        rw [hc] at hb
        simp at hb
      simp only [setOverrideLoop, if_neg hne, ih hfind]

theorem find?_append_of_none {p : SizeOverride → Bool} :
    ∀ (l₁ l₂ : List SizeOverride), l₁.find? p = none →
      (l₁ ++ l₂).find? p = l₂.find? p := by
  intro l₁ l₂
  induction l₁ with
  | nil => intro _; rfl
  | cons o rest ih =>
    intro hfind
    rw [List.find?_cons] at hfind
    cases hb : p o with
    | true => rw [hb] at hfind; cases hfind
    | false =>
      rw [hb] at hfind
      rw [List.cons_append, List.find?_cons, hb, ih hfind]

/-- C10: updating an existing override entry replaces only the dimensions
passed as non-negative, keeping the other stored dimension; hence the
horizontal divider drag, which passes height -1, preserves a previously
stored height override.  A brand-new entry (id absent, table not full)
stores the passed values themselves, including -1. -/
theorem C10_set_size_override (s : List SizeOverride) (pid : Nat) (w h w0 h0 : Int)
    (hfind : s.find? (fun o => o.panel_id == pid) = some ⟨pid, w0, h0⟩) :
    (UI_Get_Size_Override_W (UI_Set_Size_Override s pid w h) pid
        = if w ≥ 0 then w else w0) ∧
    (UI_Get_Size_Override_H (UI_Set_Size_Override s pid w h) pid
        = if h ≥ 0 then h else h0) ∧
    (UI_Get_Size_Override_H (UI_Set_Size_Override s pid w (-1)) pid = h0) ∧
    (∀ s' : List SizeOverride, s'.find? (fun o => o.panel_id == pid) = none →
      s'.length < 32 →
      UI_Get_Size_Override_W (UI_Set_Size_Override s' pid w h) pid = w ∧
      UI_Get_Size_Override_H (UI_Set_Size_Override s' pid w h) pid = h) := by
  obtain ⟨s1, hs1, hfind1⟩ := setOverrideLoop_found pid w h w0 h0 s hfind
  obtain ⟨s2, hs2, hfind2⟩ := setOverrideLoop_found pid w (-1) w0 h0 s hfind
  refine ⟨?_, ?_, ?_, ?_⟩
  · simp only [UI_Set_Size_Override, hs1, UI_Get_Size_Override_W, hfind1]
  · simp only [UI_Set_Size_Override, hs1, UI_Get_Size_Override_H, hfind1]
  · simp only [UI_Set_Size_Override, hs2, UI_Get_Size_Override_H, hfind2]
    norm_num
  · intro s' hnone hroom
    have hloop := setOverrideLoop_not_found pid w h s' hnone
    have happ := find?_append_of_none s' [⟨pid, w, h⟩] hnone
    constructor
    · simp only [UI_Set_Size_Override, hloop, if_pos hroom, UI_Get_Size_Override_W, happ,
        List.find?_cons, beq_self_eq_true]
    · simp only [UI_Set_Size_Override, hloop, if_pos hroom, UI_Get_Size_Override_H, happ,
        List.find?_cons, beq_self_eq_true]

/-- C10 witness: a store holding (id 5, w 300, h 120); a horizontal drag
update to width 500 with height -1 keeps the stored height 120. -/
theorem C10_witness :
    (([⟨5, 300, 120⟩] : List SizeOverride).find? (fun o => o.panel_id == 5)
        = some ⟨5, 300, 120⟩) ∧
    UI_Get_Size_Override_H (UI_Set_Size_Override [⟨5, 300, 120⟩] 5 500 (-1)) 5 = 120 :=
  ⟨by decide,
   (C10_set_size_override [⟨5, 300, 120⟩] 5 500 (-1) 300 120 (by decide)).2.2.1⟩

/-! ### Divider drag-resize resolution (claim C1) -/

/-- The size computation of `UI_Update_Divider_Resize`, given the resize
direction (the divider's parent's layout direction: 0 resizes along x,
otherwise along y), the mouse position, the drag-start state, and the
min/max constraints of the left and right panels (`none` when the panel
did not resolve).  Returns the final (left, right) sizes written to the
panels' styles and to the size-override store. -/
def UI_Update_Divider_Resize_sizes (resizeDir mouseX mouseY : Int)
    (dragStartPos startL startR : Int)
    (leftCons rightCons : Option (Int × Int)) : Int × Int :=
  let currentPos := if resizeDir = 0 then mouseX else mouseY
  let delta0 := currentPos - dragStartPos
  let newL0 := startL + delta0
  let newR0 := startR - delta0
  let s1 :=
    match leftCons with
    | some (mn, mx) =>
      if newL0 < mn then (mn, startR - (mn - startL))
      else if newL0 > mx then (mx, startR - (mx - startL))
      else (newL0, newR0)
    | none => (newL0, newR0)
  match rightCons with
  | some (mn, mx) =>
    if s1.2 < mn then (startL + (startR - mn), mn)
    else if s1.2 > mx then (startL + (startR - mx), mx)
    else s1
  | none => s1

/-- Integer clamping to `[lo, hi]`, as the specification words it. -/
def clampI (v lo hi : Int) : Int := if v < lo then lo else if v > hi then hi else v

/-- The resize step as the specification describes it: propose zero-sum
sizes from the pointer delta, clamp the left size and re-derive the right
from the clamped delta, then clamp the right size and re-derive the left
from that clamp (the right-side clamp is applied second). -/
def dividerResizeSpec (resizeDir mouseX mouseY : Int)
    (dragStartPos startL startR : Int)
    (leftCons rightCons : Option (Int × Int)) : Int × Int :=
  let pos := if resizeDir = 0 then mouseX else mouseY
  let delta := pos - dragStartPos
  let lp := startL + delta
  let l1 := match leftCons with | some (mn, mx) => clampI lp mn mx | none => lp
  let d1 := l1 - startL
  let r1 := startR - d1
  let r2 := match rightCons with | some (mn, mx) => clampI r1 mn mx | none => r1
  let d2 := startR - r2
  let l2 := startL + d2
  (l2, r2)

/-- C1: the implementation's divider-resize step computes exactly the
specification's two-stage clamp (left clamp first, right clamp second and
able to override the left result), and in the concrete scenario — left
panel min 200, drag start sizes 300/300, pointer delta -150 proposing
left 150 — the final sizes are left 200 and right 400 (the right panel
absorbs the difference). -/
theorem C1_divider_resize :
    (∀ resizeDir mouseX mouseY dragStartPos startL startR leftCons rightCons,
      UI_Update_Divider_Resize_sizes resizeDir mouseX mouseY
          dragStartPos startL startR leftCons rightCons
        = dividerResizeSpec resizeDir mouseX mouseY
          dragStartPos startL startR leftCons rightCons) ∧
    UI_Update_Divider_Resize_sizes 0 (-150) 0 0 300 300
        (some (200, 2147483647)) (some (200, 2147483647)) = (200, 400) := by
  constructor
  · intro resizeDir mouseX mouseY dragStartPos startL startR leftCons rightCons
    cases leftCons with
    | none =>
      cases rightCons with
      | none =>
        simp only [UI_Update_Divider_Resize_sizes, dividerResizeSpec, clampI, Prod.mk.injEq]
        omega
      | some rc =>
        obtain ⟨mn, mx⟩ := rc
        simp only [UI_Update_Divider_Resize_sizes, dividerResizeSpec, clampI]
        split_ifs <;> simp_all [Prod.mk.injEq] <;> omega
    | some lc =>
      obtain ⟨lmn, lmx⟩ := lc
      cases rightCons with
      | none =>
        simp only [UI_Update_Divider_Resize_sizes, dividerResizeSpec, clampI]
        split_ifs <;> simp_all [Prod.mk.injEq]
      | some rc =>
        obtain ⟨mn, mx⟩ := rc
        simp only [UI_Update_Divider_Resize_sizes, dividerResizeSpec, clampI]
        split_ifs <;> simp_all [Prod.mk.injEq] <;> omega
  · decide

/-! ### The built panel tree and the layout engine -/

/-- A panel of the built tree: style, the rect stored in the arena record,
label metadata, and the children in creation order (the
`first_child`/`next_sibling` chain of the arena). -/
inductive Panel where
  | node (style : Style) (rect : RectI) (isLabel : Bool) (labelText : List Nat)
      (labelColor : Nat) (children : List Panel)

def Panel.style : Panel → Style
  | .node st _ _ _ _ _ => st

def Panel.rect : Panel → RectI
  | .node _ r _ _ _ _ => r

def Panel.isLabel : Panel → Bool
  | .node _ _ lbl _ _ _ => lbl

def Panel.labelText : Panel → List Nat
  | .node _ _ _ txt _ _ => txt

def Panel.labelColor : Panel → Nat
  | .node _ _ _ _ lc _ => lc

def Panel.children : Panel → List Panel
  | .node _ _ _ _ _ cs => cs

/-- The C cast `(int)x` applied to a float value: truncation toward zero,
modelled on the exact rational. -/
def ratToInt (q : ℚ) : Int := q.num.tdiv q.den

theorem ratToInt_eq_floor (q : ℚ) (hq : 0 ≤ q) : ratToInt q = ⌊q⌋ := by
  rw [ratToInt, Rat.floor_def]
  exact Int.tdiv_eq_ediv (Rat.num_nonneg.mpr hq) (Int.ofNat_nonneg q.den)

/-- Main-axis fixed contribution along width:
`(pref_w >= 0) ? pref_w : 0`. -/
def styleFixedW (st : Style) : Int := if st.pref_w ≥ 0 then st.pref_w else 0

/-- Main-axis fixed contribution along height. -/
def styleFixedH (st : Style) : Int := if st.pref_h ≥ 0 then st.pref_h else 0

/-- Contribution of a child to `grow_sum`: only positive `flex_grow`. -/
def styleGrowContrib (st : Style) : ℚ := if st.flex_grow > 0 then st.flex_grow else 0

/-- Flex enlargement `(int)(flex_grow / grow_sum * remaining)` of the
second layout pass, applied only when the child grows and `grow_sum` is
positive. -/
def flexAmount (grow growSum : ℚ) (remaining : Int) : Int :=
  if grow > 0 ∧ growSum > 0 then ratToInt (grow / growSum * (remaining : ℚ)) else 0

/-- A child's final main-axis width in a row container. -/
def styleMainW (growSum : ℚ) (remaining : Int) (st : Style) : Int :=
  styleFixedW st + flexAmount st.flex_grow growSum remaining

/-- A child's final main-axis height in a column container. -/
def styleMainH (growSum : ℚ) (remaining : Int) (st : Style) : Int :=
  styleFixedH st + flexAmount st.flex_grow growSum remaining

/-- Second pass of `UI_LayoutRow`: walk the children with a running
x cursor; each child gets `{cursor_x, y0, w, ch}` and the cursor advances
by `w + gap`. -/
def rowPlace (y0 ch gap : Int) (growSum : ℚ) (remaining : Int) :
    Int → List Style → List RectI
  | _, [] => []
  | cursor, st :: sts =>
    let w := styleMainW growSum remaining st
    ⟨cursor, y0, w, ch⟩ :: rowPlace y0 ch gap growSum remaining (cursor + w + gap) sts

/-- Second pass of `UI_LayoutColumn`: running y cursor; each child gets
`{x0, cursor_y, cw, h}`. -/
def colPlace (x0 cw gap : Int) (growSum : ℚ) (remaining : Int) :
    Int → List Style → List RectI
  | _, [] => []
  | cursor, st :: sts =>
    let h := styleMainH growSum remaining st
    ⟨x0, cursor, cw, h⟩ :: colPlace x0 cw gap growSum remaining (cursor + h + gap) sts

/-- `UI_LayoutRow`: the rects assigned to the children of a row container
with style `pst` and rect `r`.  Content box clamped to non-negative,
`remaining = max(0, cw - fixed_sum - gaps_total)`. -/
def UI_LayoutRow_rects (pst : Style) (r : RectI) (cs : List Panel) : List RectI :=
  let sts := cs.map Panel.style
  let x0 := r.x + pst.pad_l
  let y0 := r.y + pst.pad_t
  let cw := max (r.w - (pst.pad_l + pst.pad_r)) 0
  let ch := max (r.h - (pst.pad_t + pst.pad_b)) 0
  let fixedSum := (sts.map styleFixedW).sum
  let growSum := (sts.map styleGrowContrib).sum
  let gapsTotal := if sts.length > 1 then pst.gap * ((sts.length : Int) - 1) else 0
  let remaining := max (cw - fixedSum - gapsTotal) 0
  rowPlace y0 ch pst.gap growSum remaining x0 sts

/-- `UI_LayoutColumn`: the rects assigned to the children of a column
container. -/
def UI_LayoutColumn_rects (pst : Style) (r : RectI) (cs : List Panel) : List RectI :=
  let sts := cs.map Panel.style
  let x0 := r.x + pst.pad_l
  let y0 := r.y + pst.pad_t
  let cw := max (r.w - (pst.pad_l + pst.pad_r)) 0
  let ch := max (r.h - (pst.pad_t + pst.pad_b)) 0
  let fixedSum := (sts.map styleFixedH).sum
  let growSum := (sts.map styleGrowContrib).sum
  let gapsTotal := if sts.length > 1 then pst.gap * ((sts.length : Int) - 1) else 0
  let remaining := max (ch - fixedSum - gapsTotal) 0
  colPlace x0 cw pst.gap growSum remaining y0 sts

/-- The rects a container assigns to its children, by direction
(`UI_LayoutPanelTree`'s dispatch: 0 row, 1 column, anything else leaves
the children's stored rects untouched). -/
def childTargetRects (pst : Style) (r : RectI) (cs : List Panel) : List RectI :=
  if pst.direction = 0 then UI_LayoutRow_rects pst r cs
  else if pst.direction = 1 then UI_LayoutColumn_rects pst r cs
  else cs.map Panel.rect

mutual
/-- `UI_LayoutPanelTree` with the panel's rect made explicit: store `r`
as this panel's rect, assign the children their rects by the parent's
direction, and recurse into each child with its newly assigned rect. -/
def layoutAt (r : RectI) : Panel → Panel
  | .node st _ lbl txt lc cs =>
    .node st r lbl txt lc (layoutKids (childTargetRects st r cs) cs)

/-- Recurse into the children, pairing each child with its assigned rect. -/
def layoutKids : List RectI → List Panel → List Panel
  | rc :: rcs, c :: cs => layoutAt rc c :: layoutKids rcs cs
  | _, _ => []
end

/-- `UI_LayoutPanelTree` on the root: the root keeps its stored rect. -/
def UI_LayoutPanelTree (p : Panel) : Panel := layoutAt p.rect p

theorem layoutAt_style (r : RectI) (p : Panel) : (layoutAt r p).style = p.style := by
  cases p
  simp [layoutAt, Panel.style]

theorem layoutAt_rect (r : RectI) (p : Panel) : (layoutAt r p).rect = r := by
  cases p
  simp [layoutAt, Panel.rect]

theorem layoutKids_style_map : ∀ (rcs : List RectI) (cs : List Panel),
    rcs.length = cs.length →
    (layoutKids rcs cs).map Panel.style = cs.map Panel.style := by
  intro rcs
  induction rcs with
  | nil =>
    intro cs h
    have : cs = [] := List.length_eq_zero.mp h.symm
    subst this
    rfl
  | cons rc rcs ih =>
    intro cs h
    cases cs with
    | nil => cases h
    | cons c cs =>
      simp only [layoutKids, List.map_cons, layoutAt_style]
      rw [ih cs (by simpa using h)]

theorem layoutKids_rect_map : ∀ (rcs : List RectI) (cs : List Panel),
    rcs.length = cs.length →
    (layoutKids rcs cs).map Panel.rect = rcs := by
  intro rcs
  induction rcs with
  | nil =>
    intro cs h
    have : cs = [] := List.length_eq_zero.mp h.symm
    subst this
    rfl
  | cons rc rcs ih =>
    intro cs h
    cases cs with
    | nil => cases h
    | cons c cs =>
      simp only [layoutKids, List.map_cons, layoutAt_rect]
      rw [ih cs (by simpa using h)]

theorem rowPlace_length (y0 ch gap : Int) (gs : ℚ) (rem : Int) :
    ∀ (cursor : Int) (sts : List Style),
      (rowPlace y0 ch gap gs rem cursor sts).length = sts.length := by
  intro cursor sts
  induction sts generalizing cursor with
  | nil => rfl
  | cons st sts ih => simp only [rowPlace, List.length_cons, ih]

theorem colPlace_length (x0 cw gap : Int) (gs : ℚ) (rem : Int) :
    ∀ (cursor : Int) (sts : List Style),
      (colPlace x0 cw gap gs rem cursor sts).length = sts.length := by
  intro cursor sts
  induction sts generalizing cursor with
  | nil => rfl
  | cons st sts ih => simp only [colPlace, List.length_cons, ih]

theorem childTargetRects_length (pst : Style) (r : RectI) (cs : List Panel) :
    (childTargetRects pst r cs).length = cs.length := by
  unfold childTargetRects
  split_ifs
  · simp [UI_LayoutRow_rects, rowPlace_length]
  · simp [UI_LayoutColumn_rects, colPlace_length]
  · simp

/-- Assigning rects to an already laid-out child list reproduces the same
rects: row and column assignment depend only on the children's styles,
which layout preserves, and the fall-through case reads back exactly the
stored rects that were just assigned. -/
theorem childTargetRects_relayout (pst : Style) (r : RectI) (ks cs : List Panel)
    (hsty : ks.map Panel.style = cs.map Panel.style)
    (hrect : ks.map Panel.rect = childTargetRects pst r cs) :
    childTargetRects pst r ks = childTargetRects pst r cs := by
  by_cases h0 : pst.direction = 0
  · simp only [childTargetRects, if_pos h0, UI_LayoutRow_rects, hsty]
  · by_cases h1 : pst.direction = 1
    · simp only [childTargetRects, if_neg h0, if_pos h1, UI_LayoutColumn_rects, hsty]
    · simp only [childTargetRects, if_neg h0, if_neg h1] at hrect ⊢
      exact hrect

/-- Re-laying-out an already laid-out child list with the same target
rects is the identity, given idempotence of each element. -/
theorem layoutKids_idem_of (rcs : List RectI) (cs : List Panel)
    (hel : ∀ c ∈ cs, ∀ rc, layoutAt rc (layoutAt rc c) = layoutAt rc c) :
    layoutKids rcs (layoutKids rcs cs) = layoutKids rcs cs := by
  induction rcs generalizing cs with
  | nil => cases cs <;> rfl
  | cons rc rcs ih =>
    cases cs with
    | nil => rfl
    | cons c cs =>
      simp only [layoutKids]
      rw [hel c (List.mem_cons_self c cs) rc,
        ih cs (fun x hx rx => hel x (List.mem_cons_of_mem c hx) rx)]

theorem layoutAt_idem_aux : ∀ (n : Nat) (p : Panel), sizeOf p ≤ n →
    ∀ r, layoutAt r (layoutAt r p) = layoutAt r p := by
  intro n
  induction n with
  | zero =>
    intro p hp
    cases p with
    | node st r0 lbl txt lc cs => simp at hp
  | succ n ih =>
    intro p hp r
    cases p with
    | node st r0 lbl txt lc cs =>
      have hsz : sizeOf cs ≤ n := by
        have := Panel.node.sizeOf_spec st r0 lbl txt lc cs
        omega
      have hel : ∀ c ∈ cs, ∀ rc, layoutAt rc (layoutAt rc c) = layoutAt rc c := by
        intro c hc rc
        exact ih c (by have := List.sizeOf_lt_of_mem hc; omega) rc
      have hlen : (childTargetRects st r cs).length = cs.length :=
        childTargetRects_length st r cs
      simp only [layoutAt]
      have htargets :
          childTargetRects st r (layoutKids (childTargetRects st r cs) cs)
            = childTargetRects st r cs :=
        childTargetRects_relayout st r _ cs
          (layoutKids_style_map _ cs hlen) (layoutKids_rect_map _ cs hlen)
      rw [htargets]
      rw [layoutKids_idem_of _ cs hel]

/-- C9: invoking the layout engine twice in succession on a built tree
(no rebuild in between) yields exactly the same rect for every panel as
invoking it once — the second pass is the identity on the laid-out tree. -/
theorem C9_layout_idempotent (p : Panel) :
    UI_LayoutPanelTree (UI_LayoutPanelTree p) = UI_LayoutPanelTree p := by
  unfold UI_LayoutPanelTree
  rw [layoutAt_rect]
  exact layoutAt_idem_aux (sizeOf p) p (le_refl _) p.rect

/-- `UI_Default_Panel_Style`: zero-initialized (`= {}`) and then the
explicit field writes. -/
def UI_Default_Panel_Style : Style :=
  { color := 0xFF222222, min_w := 0, max_w := 2147483647, min_h := 0, max_h := 2147483647,
    pref_w := -1, pref_h := -1, pad_l := 0, pad_t := 0, pad_r := 0, pad_b := 0,
    flex_grow := 0, flex_shrink := 1, flex_basis := -1, direction := 0, gap := 0,
    resizable := 0, resize_hitbox_padding := 0 }

/-- The claim's concrete row container: rect `w=300,h=50`, zero padding,
zero gap, child A `(pref_w=100, grow=0)`, child B `(pref_w=-1, grow=1)`. -/
def rowDemo : Panel :=
  .node { UI_Default_Panel_Style with direction := 0, gap := 0 } ⟨0, 0, 300, 50⟩ false [] 0
    [.node { UI_Default_Panel_Style with pref_w := 100 } ⟨0, 0, 0, 0⟩ false [] 0 [],
     .node { UI_Default_Panel_Style with pref_w := -1, flex_grow := 1 } ⟨0, 0, 0, 0⟩ false [] 0 []]

theorem rowPlace_w_map (y0 ch gap : Int) (gs : ℚ) (rem : Int) :
    ∀ (cursor : Int) (sts : List Style),
      (rowPlace y0 ch gap gs rem cursor sts).map RectI.w = sts.map (styleMainW gs rem) := by
  intro cursor sts
  induction sts generalizing cursor with
  | nil => rfl
  | cons st sts ih => simp only [rowPlace, List.map_cons, ih]

theorem flexAmount_eq_floor (grow gs : ℚ) (rem : Int)
    (hg : grow > 0) (hgs : gs > 0) (hrem : 0 ≤ rem) :
    flexAmount grow gs rem = ⌊grow / gs * (rem : ℚ)⌋ := by
  rw [flexAmount, if_pos ⟨hg, hgs⟩]
  exact ratToInt_eq_floor _
    (mul_nonneg (le_of_lt (div_pos hg hgs)) (by exact_mod_cast hrem))

/-- C3: in the concrete row container (`w=300,h=50`, padding 0, gap 0,
children `(pref_w=100, grow=0)` and `(pref_w=-1, grow=1)`), one layout
pass assigns child A the rect `x=0,w=100` and child B the rect
`x=100,w=200`; in general the widths a row assigns are, child by child,
`styleMainW`, which for a growing child in a growing row with
non-negative remaining space equals the fixed contribution plus
`floor(flex_grow / grow_sum * remaining)`. -/
theorem C3_row_layout :
    ((UI_LayoutPanelTree rowDemo).children.map Panel.rect
        = [⟨0, 0, 100, 50⟩, ⟨100, 0, 200, 50⟩]) ∧
    (∀ (y0 ch gap : Int) (gs : ℚ) (rem cursor : Int) (sts : List Style),
      (rowPlace y0 ch gap gs rem cursor sts).map RectI.w = sts.map (styleMainW gs rem)) ∧
    (∀ (st : Style) (gs : ℚ) (rem : Int),
      st.flex_grow > 0 → gs > 0 → 0 ≤ rem →
      styleMainW gs rem st = styleFixedW st + ⌊st.flex_grow / gs * (rem : ℚ)⌋) := by
  refine ⟨by
      norm_num [rowDemo, UI_LayoutPanelTree, layoutAt, layoutKids, Panel.children, Panel.rect,
        Panel.style, childTargetRects, UI_LayoutRow_rects, rowPlace, styleMainW, styleFixedW,
        styleGrowContrib, flexAmount, ratToInt, UI_Default_Panel_Style],
    fun y0 ch gap gs rem cursor sts => rowPlace_w_map y0 ch gap gs rem cursor sts,
    fun st gs rem hg hgs hrem => ?_⟩
  rw [styleMainW, flexAmount_eq_floor st.flex_grow gs rem hg hgs hrem]

/-- C3 witness: the general width formula applied at child B's style with
`grow_sum = 1` and `remaining = 200`: width is `0 + floor(1/1 * 200)`. -/
theorem C3_witness :
    ((1 : ℚ) > 0 ∧ (1 : ℚ) > 0 ∧ (0 : Int) ≤ 200) ∧
    styleMainW 1 200 { UI_Default_Panel_Style with pref_w := -1, flex_grow := 1 }
      = styleFixedW { UI_Default_Panel_Style with pref_w := -1, flex_grow := 1 }
        + ⌊({ UI_Default_Panel_Style with pref_w := -1, flex_grow := 1 } : Style).flex_grow
            / (1 : ℚ) * ((200 : Int) : ℚ)⌋ :=
  ⟨⟨by norm_num, by norm_num, by norm_num⟩,
   C3_row_layout.2.2 { UI_Default_Panel_Style with pref_w := -1, flex_grow := 1 } 1 200
     (by norm_num) (by norm_num) (by norm_num)⟩

/-! ### Panel arena and builder API -/

/-- An arena record (`UI_Panel` in the source): tree links are indices
into the arena, -1 meaning absent. -/
structure PanelRec where
  id : Nat
  style : Style
  parent : Int
  first_child : Int
  last_child : Int
  next_sibling : Int
  rect : RectI
  label_text : List Nat
  label_color : Nat
  is_label : Int
deriving Repr, DecidableEq

def INT32_MAX : Int := 2147483647

/-- The style installed by `UI_NewPanel` (memset to zero, then the
explicit field writes). -/
def newPanelStyle : Style :=
  { color := 0xFF222222, min_w := 200, max_w := INT32_MAX, min_h := 200, max_h := INT32_MAX,
    pref_w := -1, pref_h := -1, pad_l := 0, pad_t := 0, pad_r := 0, pad_b := 0,
    flex_grow := 0, flex_shrink := 1, flex_basis := -1, direction := 0, gap := 0,
    resizable := 0, resize_hitbox_padding := 4 }

/-- The record `UI_NewPanel` creates. -/
def newPanelRec (id : Nat) : PanelRec :=
  { id := id, style := newPanelStyle,
    parent := -1, first_child := -1, last_child := -1, next_sibling := -1,
    rect := ⟨0, 0, 0, 0⟩, label_text := [], label_color := 0xFFFFFFFF, is_label := 0 }

def UI_MAX_PANELS : Nat := 1024

/-- `UI_NewPanel`: returns `none` (index -1 in the source) when the arena
is full, otherwise the arena with a fresh record appended and its index. -/
def UI_NewPanel (panels : List PanelRec) (id : Nat) : Option (List PanelRec × Nat) :=
  if panels.length ≥ UI_MAX_PANELS then none
  else some (panels ++ [newPanelRec id], panels.length)

/-- `UI_AddChild`: link `childIdx` as the last child of `parentIdx`,
updating the child's parent link, the previous last child's sibling link,
and the parent's first/last-child links.  (The source indexes without
bounds checks; out-of-range indices, which never occur in the builder's
call pattern, are modelled as no-ops.) -/
def UI_AddChild (panels : List PanelRec) (parentIdx childIdx : Nat) : List PanelRec :=
  match panels.get? parentIdx, panels.get? childIdx with
  | some parent, some child =>
    let child' := { child with parent := (parentIdx : Int), next_sibling := -1 }
    let panels1 := panels.set childIdx child'
    if parent.first_child = -1 then
      panels1.set parentIdx
        { parent with first_child := (childIdx : Int), last_child := (childIdx : Int) }
    else
      let lc := parent.last_child.toNat
      let panels2 :=
        match panels1.get? lc with
        | some sib => panels1.set lc { sib with next_sibling := (childIdx : Int) }
        | none => panels1
      panels2.set parentIdx { parent with last_child := (childIdx : Int) }
  | _, _ => panels

/-- The engine state a builder call sees (`UI_Context` fields the builder
touches). -/
structure Ctx where
  screen_w : Int
  screen_h : Int
  panels : List PanelRec
  parent_stack : List Nat
  used_ids : List UsedId
  size_overrides : List SizeOverride
deriving Repr, DecidableEq

/-- Common body of the style setters: mutate the style of the panel on
top of the parent stack; no-op when the stack is empty. -/
def updateTopStyle (ctx : Ctx) (f : Style → Style) : Ctx :=
  match ctx.parent_stack.getLast? with
  | none => ctx
  | some idx =>
    match ctx.panels.get? idx with
    | none => ctx
    | some p => { ctx with panels := ctx.panels.set idx { p with style := f p.style } }

def UI_Panel_Set_Color (ctx : Ctx) (color : Nat) : Ctx :=
  updateTopStyle ctx (fun st => { st with color := color })

def UI_Panel_Set_Size (ctx : Ctx) (w h : Int) : Ctx :=
  updateTopStyle ctx (fun st => { st with pref_w := w, pref_h := h })

def UI_Panel_Set_Direction (ctx : Ctx) (dir : Int) : Ctx :=
  updateTopStyle ctx (fun st => { st with direction := dir })

def UI_Panel_Set_Gap (ctx : Ctx) (gap : Int) : Ctx :=
  updateTopStyle ctx (fun st => { st with gap := gap })

def UI_Panel_Set_Grow (ctx : Ctx) (grow : ℚ) : Ctx :=
  updateTopStyle ctx (fun st => { st with flex_grow := grow })

def UI_Panel_Set_Padding (ctx : Ctx) (l t r b : Int) : Ctx :=
  updateTopStyle ctx (fun st => { st with pad_l := l, pad_t := t, pad_r := r, pad_b := b })

def UI_Panel_Set_Padding_Uniform (ctx : Ctx) (padding : Int) : Ctx :=
  UI_Panel_Set_Padding ctx padding padding padding padding

/-- `UI_Begin_Panel`: generate an id (always mutating the used-ID table),
then allocate a record; on arena exhaustion return with only the id
generation's effect.  Otherwise link under the stack top, or install the
viewport rect for a root panel, and push onto the (capacity 32) stack. -/
def UI_Begin_Panel (ctx : Ctx) (name : List Nat) : Ctx :=
  let gen := UI_Generate_Id ctx.used_ids name
  match UI_NewPanel ctx.panels gen.1 with
  | none => { ctx with used_ids := gen.2 }
  | some (panels', idx) =>
    let panels'' :=
      match ctx.parent_stack.getLast? with
      | some parentIdx => UI_AddChild panels' parentIdx idx
      | none =>
        match panels'.get? idx with
        | some pr => panels'.set idx { pr with rect := ⟨0, 0, ctx.screen_w, ctx.screen_h⟩ }
        | none => panels'
    let stack' :=
      if ctx.parent_stack.length < 32 then ctx.parent_stack ++ [idx] else ctx.parent_stack
    { ctx with panels := panels'', parent_stack := stack', used_ids := gen.2 }

/-- `UI_Panel_Resizable`: begin a panel, set its direction, then consult
the size-override store by the panel's stable id; an existing override
supplants the caller's default size; `-2` requests flex-grow. -/
def UI_Panel_Resizable (ctx : Ctx) (name : List Nat) (direction : Int)
    (defaultW defaultH padding gap : Int) (color : Nat) : Ctx :=
  let ctx1 := UI_Begin_Panel ctx name
  let ctx2 := UI_Panel_Set_Direction ctx1 direction
  let pid := hashBytes name
  let w0 := UI_Get_Size_Override_W ctx2.size_overrides pid
  let h0 := UI_Get_Size_Override_H ctx2.size_overrides pid
  let w := if w0 < 0 then defaultW else w0
  let h := if h0 < 0 then defaultH else h0
  let wantsFlexW := defaultW = -2
  let wantsFlexH := defaultH = -2
  let ctx3 :=
    if w = -2 ∨ (w < 0 ∧ wantsFlexW) then
      let c := if h ≥ 0 ∧ h ≠ -2 then UI_Panel_Set_Size ctx2 (-1) h else ctx2
      UI_Panel_Set_Grow c 1
    else if h = -2 ∨ (h < 0 ∧ wantsFlexH) then
      let c := if w ≥ 0 then UI_Panel_Set_Size ctx2 w (-1) else ctx2
      UI_Panel_Set_Grow c 1
    else if w ≥ 0 ∨ h ≥ 0 then UI_Panel_Set_Size ctx2 w h
    else ctx2
  let ctx4 := if padding > 0 then UI_Panel_Set_Padding_Uniform ctx3 padding else ctx3
  let ctx5 := if gap ≥ 0 then UI_Panel_Set_Gap ctx4 gap else ctx4
  if color ≠ 0 then UI_Panel_Set_Color ctx5 color else ctx5

/-! ### Claim C6: BeginPanel on a full arena -/

/-- A context whose arena is full (1024 records) and whose per-frame
used-ID table is empty. -/
def fullCtx : Ctx :=
  { screen_w := 0, screen_h := 0, panels := List.replicate 1024 (newPanelRec 0),
    parent_stack := [], used_ids := [], size_overrides := [] }

theorem fullCtx_full : fullCtx.panels.length ≥ UI_MAX_PANELS := by
  show (List.replicate 1024 (newPanelRec 0)).length ≥ UI_MAX_PANELS
  rw [List.length_replicate]
  norm_num [UI_MAX_PANELS]

/-- C6 counterexample: with the arena full, `UI_Begin_Panel` still
mutates the per-frame used-ID deduplication table (the ID generation runs
before the allocation check), so "returns without mutating any engine
state" fails for that table. -/
theorem C6_counterexample :
    (UI_Begin_Panel fullCtx [120]).used_ids ≠ fullCtx.used_ids := by
  have hfull : fullCtx.panels.length ≥ UI_MAX_PANELS := fullCtx_full
  simp only [UI_Begin_Panel, UI_NewPanel, if_pos hfull]
  show (UI_Generate_Id fullCtx.used_ids [120]).2 ≠ fullCtx.used_ids
  decide

/-- C6 (amended): when the panel arena is full, `UI_Begin_Panel` fails
silently: the panel arena, the parent stack, the screen size and the
size-override store are all unchanged — but the used-ID table is still
updated by the ID generation that runs before the allocation attempt. -/
theorem C6_begin_panel_full (ctx : Ctx) (name : List Nat)
    (hfull : ctx.panels.length ≥ UI_MAX_PANELS) :
    (UI_Begin_Panel ctx name).panels = ctx.panels ∧
    (UI_Begin_Panel ctx name).parent_stack = ctx.parent_stack ∧
    (UI_Begin_Panel ctx name).screen_w = ctx.screen_w ∧
    (UI_Begin_Panel ctx name).screen_h = ctx.screen_h ∧
    (UI_Begin_Panel ctx name).size_overrides = ctx.size_overrides ∧
    (UI_Begin_Panel ctx name).used_ids = (UI_Generate_Id ctx.used_ids name).2 := by
  simp only [UI_Begin_Panel, UI_NewPanel, if_pos hfull]
  trivial

/-- C6 witness: the amended statement applied at the concrete full
context. -/
theorem C6_witness :
    fullCtx.panels.length ≥ UI_MAX_PANELS ∧
    (UI_Begin_Panel fullCtx [120]).panels = fullCtx.panels ∧
    (UI_Begin_Panel fullCtx [120]).parent_stack = fullCtx.parent_stack :=
  ⟨fullCtx_full,
   (C6_begin_panel_full fullCtx [120] fullCtx_full).1,
   (C6_begin_panel_full fullCtx [120] fullCtx_full).2.1⟩

/-! ### Claim C4: size overrides supplant the caller's default size -/

theorem get?_set_self {α : Type} (l : List α) (i : Nat) (a b : α)
    (h : l.get? i = some b) : (l.set i a).get? i = some a := by
  induction l generalizing i with
  | nil => cases h
  | cons x xs ih =>
    cases i with
    | zero => rfl
    | succ n =>
      simp only [List.get?_cons_succ] at h
      simp only [List.set, List.get?_cons_succ]
      exact ih n h

/-- Setting an entry whose style matches the stored record's style leaves
the arena's style column unchanged at every index. -/
theorem get?_set_style (l : List PanelRec) (j : Nat) (a : PanelRec)
    (h : ∀ b, l.get? j = some b → a.style = b.style) :
    ∀ i, ((l.set j a).get? i).map PanelRec.style = (l.get? i).map PanelRec.style := by
  induction l generalizing j with
  | nil => intro i; rfl
  | cons x xs ih =>
    intro i
    cases j with
    | zero =>
      cases i with
      | zero => simp [List.set, h x rfl]
      | succ m => simp [List.set]
    | succ n =>
      cases i with
      | zero => simp [List.set]
      | succ m =>
        simp only [List.set, List.get?_cons_succ]
        exact ih n (fun b hb => h b (by simpa using hb)) m

/-- `UI_AddChild` rewires tree links but never touches any record's
style. -/
theorem UI_AddChild_style_at (panels : List PanelRec) (p c : Nat) (i : Nat) :
    ((UI_AddChild panels p c).get? i).map PanelRec.style
      = (panels.get? i).map PanelRec.style := by
  unfold UI_AddChild
  cases hp : panels.get? p with
  | none =>
    cases hc : panels.get? c with
    | none => rfl
    | some child => rfl
  | some parent =>
    cases hc : panels.get? c with
    | none => rfl
    | some child =>
      dsimp only
      set panels1 := panels.set c { child with parent := (p : Int), next_sibling := -1 } with hp1
      have h1 : ∀ k, (panels1.get? k).map PanelRec.style = (panels.get? k).map PanelRec.style := by
        intro k
        rw [hp1]
        exact get?_set_style panels c _
          (fun b hb => by rw [hc] at hb; injection hb with hh; rw [← hh]) k
      have hparstyle : ∀ (x : PanelRec), panels1.get? p = some x → parent.style = x.style := by
        intro x hx
        have hk := h1 p
        rw [hx, hp] at hk
        simp only [Option.map_some'] at hk
        injection hk with hh
        exact hh.symm
      by_cases hfc : parent.first_child = -1
      · rw [if_pos hfc]
        rw [get?_set_style panels1 p
          { parent with first_child := (c : Int), last_child := (c : Int) }
          (fun b hb => hparstyle b hb) i, h1 i]
      · rw [if_neg hfc]
        cases hsib : panels1.get? parent.last_child.toNat with
        | none =>
          dsimp only
          rw [get?_set_style panels1 p { parent with last_child := (c : Int) }
            (fun b hb => hparstyle b hb) i, h1 i]
        | some sib =>
          dsimp only
          set panels2 := panels1.set parent.last_child.toNat
            { sib with next_sibling := (c : Int) } with hp2
          have h2 : ∀ k, (panels2.get? k).map PanelRec.style
              = (panels1.get? k).map PanelRec.style := by
            intro k
            rw [hp2]
            exact get?_set_style panels1 _ _
              (fun b hb => by rw [hsib] at hb; injection hb with hh; rw [← hh]) k
          have hcond : ∀ b, panels2.get? p = some b →
              ({ parent with last_child := (c : Int) } : PanelRec).style = b.style := by
            intro b hb
            have hk := h2 p
            rw [hb] at hk
            simp only [Option.map_some'] at hk
            cases hget : panels1.get? p with
            | none =>
              rw [hget] at hk
              simp at hk
            | some x =>
              rw [hget] at hk
              simp only [Option.map_some'] at hk
              injection hk with hh
              exact (hparstyle x hget).trans hh.symm
          rw [get?_set_style panels2 p _ hcond i, h2 i, h1 i]

/-- After a successful `UI_Begin_Panel` (arena has room, stack has room),
the new record sits at index `ctx.panels.length` with the freshly
initialized style, the stack top is that index, and the size-override
store is untouched. -/
theorem UI_Begin_Panel_spec (ctx : Ctx) (name : List Nat)
    (hroom : ctx.panels.length < UI_MAX_PANELS)
    (hstack : ctx.parent_stack.length < 32) :
    ((UI_Begin_Panel ctx name).panels.get? ctx.panels.length).map PanelRec.style
        = some newPanelStyle ∧
    (UI_Begin_Panel ctx name).parent_stack = ctx.parent_stack ++ [ctx.panels.length] ∧
    (UI_Begin_Panel ctx name).size_overrides = ctx.size_overrides := by
  have hnotfull : ¬ ctx.panels.length ≥ UI_MAX_PANELS := by omega
  simp only [UI_Begin_Panel, UI_NewPanel, if_neg hnotfull, if_pos hstack]
  have hget : (ctx.panels ++ [newPanelRec (UI_Generate_Id ctx.used_ids name).1]).get?
      ctx.panels.length = some (newPanelRec (UI_Generate_Id ctx.used_ids name).1) :=
    List.get?_concat_length _ _
  cases hlast : ctx.parent_stack.getLast? with
  | none =>
    dsimp only
    rw [hget]
    refine ⟨?_, by trivial, by trivial⟩
    rw [get?_set_self _ _ _ _ hget]
    rfl
  | some parentIdx =>
    refine ⟨?_, by trivial, by trivial⟩
    rw [UI_AddChild_style_at, hget]
    rfl

/-- A style setter on the stack top rewrites exactly the style at the top
index, and touches neither the stack nor the size-override store. -/
theorem updateTopStyle_at (ctx : Ctx) (f : Style → Style) (idx : Nat) (st : Style)
    (htop : ctx.parent_stack.getLast? = some idx)
    (hsty : (ctx.panels.get? idx).map PanelRec.style = some st) :
    ((updateTopStyle ctx f).panels.get? idx).map PanelRec.style = some (f st) ∧
    (updateTopStyle ctx f).parent_stack = ctx.parent_stack ∧
    (updateTopStyle ctx f).size_overrides = ctx.size_overrides ∧
    (updateTopStyle ctx f).parent_stack.getLast? = some idx := by
  obtain ⟨p, hp, hps⟩ := Option.map_eq_some'.mp hsty
  simp only [updateTopStyle, htop, hp]
  refine ⟨?_, by trivial, by trivial, by trivial⟩
  rw [get?_set_self _ _ _ _ hp]
  simp only [Option.map_some']
  rw [hps]

/-- A conditional style setter preserves the tracked style up to one
application of `f`, and never touches stack or overrides. -/
theorem ite_updateTopStyle_at (cond : Prop) [Decidable cond] (ctx : Ctx) (f : Style → Style)
    (idx : Nat) (st : Style)
    (htop : ctx.parent_stack.getLast? = some idx)
    (hsty : (ctx.panels.get? idx).map PanelRec.style = some st) :
    ∃ st', ((if cond then updateTopStyle ctx f else ctx).panels.get? idx).map PanelRec.style
        = some st' ∧
      (st' = f st ∨ st' = st) ∧
      (if cond then updateTopStyle ctx f else ctx).size_overrides = ctx.size_overrides ∧
      (if cond then updateTopStyle ctx f else ctx).parent_stack.getLast? = some idx := by
  split
  · obtain ⟨h1, _, h3, h4⟩ := updateTopStyle_at ctx f idx st htop hsty
    exact ⟨f st, h1, Or.inl rfl, h3, h4⟩
  · exact ⟨st, hsty, Or.inr rfl, rfl, htop⟩

/-- C4: when the size-override store holds width 500 for the hashed panel
name, `UI_Panel_Resizable` installs preferred width 500 on the freshly
built panel regardless of the caller's requested non-negative default
width (the override supplants it), leaving the panel a non-flex
participant; and any panel whose style has preferred width 500 and zero
flex-grow is laid out with rect width exactly 500 at its position inside
any row container.  (The height arguments are constrained away from the
-2 flex sentinel, which would instead request flex-grow.) -/
theorem C4_override_persistence (ctx : Ctx) (name : List Nat)
    (direction defaultW defaultH padding gap : Int) (color : Nat) (h0 : Int)
    (hroom : ctx.panels.length < UI_MAX_PANELS)
    (hstack : ctx.parent_stack.length < 32)
    (hW : UI_Get_Size_Override_W ctx.size_overrides (hashBytes name) = 500)
    (hH : UI_Get_Size_Override_H ctx.size_overrides (hashBytes name) = h0)
    (hh0 : h0 ≠ -2)
    (hdW : defaultW ≥ 0)
    (hdH : defaultH ≠ -2) :
    (∃ p : PanelRec,
      (UI_Panel_Resizable ctx name direction defaultW defaultH padding gap color).panels.get?
          ctx.panels.length = some p ∧
      p.style.pref_w = 500 ∧ p.style.flex_grow = 0) ∧
    (∀ (pnl : Panel), pnl.style.pref_w = 500 → pnl.style.flex_grow = 0 →
      ∀ (pst : Style) (r : RectI) (cs₁ cs₂ : List Panel), pst.direction = 0 →
        ((UI_LayoutPanelTree
            (Panel.node pst r false [] 0 (cs₁ ++ pnl :: cs₂))).children.map
              (fun cp => cp.rect.w)).get? cs₁.length = some 500) := by
  constructor
  · obtain ⟨hsty1, hstk1, hov1⟩ := UI_Begin_Panel_spec ctx name hroom hstack
    have htop1 : (UI_Begin_Panel ctx name).parent_stack.getLast? = some ctx.panels.length := by
      rw [hstk1]
      exact List.getLast?_concat _
    obtain ⟨hsty2, hstk2, hov2, htop2⟩ := updateTopStyle_at (UI_Begin_Panel ctx name)
      (fun st => { st with direction := direction }) ctx.panels.length newPanelStyle htop1 hsty1
    simp only [UI_Panel_Resizable, UI_Panel_Set_Direction, UI_Panel_Set_Size,
      UI_Panel_Set_Padding_Uniform, UI_Panel_Set_Padding, UI_Panel_Set_Gap, UI_Panel_Set_Color]
    rw [hov2, hov1, hW, hH]
    have hw5 : (if (500 : Int) < 0 then defaultW else 500) = 500 := by norm_num
    rw [hw5]
    have hcond1 : ¬((500 : Int) = -2 ∨ ((500 : Int) < 0 ∧ defaultW = -2)) := by norm_num
    rw [if_neg hcond1]
    set hval := if h0 < 0 then defaultH else h0 with hhval
    have hvne : hval ≠ -2 := by
      rw [hhval]
      split
      · exact hdH
      · exact hh0
    have hcond2 : ¬(hval = -2 ∨ (hval < 0 ∧ defaultH = -2)) := by
      rintro (h | ⟨_, h⟩)
      · exact hvne h
      · exact hdH h
    rw [if_neg hcond2]
    have hcond3 : (500 : Int) ≥ 0 ∨ hval ≥ 0 := Or.inl (by norm_num)
    rw [if_pos hcond3]
    obtain ⟨hsty3, hstk3, hov3, htop3⟩ := updateTopStyle_at
      (updateTopStyle (UI_Begin_Panel ctx name) (fun st => { st with direction := direction }))
      (fun st => { st with pref_w := (500 : Int), pref_h := hval })
      ctx.panels.length _ htop2 hsty2
    obtain ⟨st4, hsty4, hor4, hov4, htop4⟩ := ite_updateTopStyle_at (padding > 0) _
      (fun st => { st with pad_l := padding, pad_t := padding, pad_r := padding, pad_b := padding })
      ctx.panels.length _ htop3 hsty3
    obtain ⟨st5, hsty5, hor5, hov5, htop5⟩ := ite_updateTopStyle_at (gap ≥ 0) _
      (fun st => { st with gap := gap }) ctx.panels.length _ htop4 hsty4
    obtain ⟨st6, hsty6, hor6, hov6, htop6⟩ := ite_updateTopStyle_at (color ≠ 0) _
      (fun st => { st with color := color }) ctx.panels.length _ htop5 hsty5
    have hP4 : st4.pref_w = 500 ∧ st4.flex_grow = 0 := by
      rcases hor4 with h | h <;> subst h <;> exact ⟨rfl, rfl⟩
    have hP5 : st5.pref_w = 500 ∧ st5.flex_grow = 0 := by
      rcases hor5 with h | h <;> subst h
      · exact ⟨hP4.1, hP4.2⟩
      · exact hP4
    have hP6 : st6.pref_w = 500 ∧ st6.flex_grow = 0 := by
      rcases hor6 with h | h <;> subst h
      · exact ⟨hP5.1, hP5.2⟩
      · exact hP5
    obtain ⟨p, hp, hps⟩ := Option.map_eq_some'.mp hsty6
    exact ⟨p, hp, by rw [hps]; exact hP6.1, by rw [hps]; exact hP6.2⟩
  · intro pnl hw hg pst r cs₁ cs₂ hdir
    have hchild : (UI_LayoutPanelTree (Panel.node pst r false [] 0 (cs₁ ++ pnl :: cs₂))).children
        = layoutKids (childTargetRects pst r (cs₁ ++ pnl :: cs₂)) (cs₁ ++ pnl :: cs₂) := by
      rw [UI_LayoutPanelTree]
      rfl
    rw [hchild]
    have hlen := childTargetRects_length pst r (cs₁ ++ pnl :: cs₂)
    have hmaprect := layoutKids_rect_map _ _ hlen
    have hmm : (layoutKids (childTargetRects pst r (cs₁ ++ pnl :: cs₂))
          (cs₁ ++ pnl :: cs₂)).map (fun cp => cp.rect.w)
        = (childTargetRects pst r (cs₁ ++ pnl :: cs₂)).map RectI.w := by
      rw [show (fun (cp : Panel) => cp.rect.w) = (RectI.w ∘ Panel.rect) from rfl,
        ← List.map_map, hmaprect]
    rw [hmm]
    rw [show childTargetRects pst r (cs₁ ++ pnl :: cs₂)
        = UI_LayoutRow_rects pst r (cs₁ ++ pnl :: cs₂) from by
      rw [childTargetRects, if_pos hdir]]
    simp only [UI_LayoutRow_rects]
    rw [rowPlace_w_map]
    rw [List.get?_map, List.get?_map]
    rw [List.get?_append_right (le_refl cs₁.length), Nat.sub_self]
    simp only [List.get?_cons_zero, Option.map_some']
    simp only [styleMainW, styleFixedW, flexAmount, hw, hg]
    norm_num

/-- C4 witness: a store holding `(hash "X", 500, -1)`; building the
resizable panel with caller default width 240 yields preferred width 500
and no flex participation. -/
theorem C4_witness :
    (UI_Get_Size_Override_W [⟨hashBytes [88], 500, -1⟩] (hashBytes [88]) = 500) ∧
    (∃ p : PanelRec,
      (UI_Panel_Resizable
          ⟨800, 600, [], [], [], [⟨hashBytes [88], 500, -1⟩]⟩ [88] 1 240 (-1) 12 8 0xFF22222A).panels.get?
          0 = some p ∧
      p.style.pref_w = 500 ∧ p.style.flex_grow = 0) :=
  ⟨by decide,
   (C4_override_persistence ⟨800, 600, [], [], [], [⟨hashBytes [88], 500, -1⟩]⟩ [88]
     1 240 (-1) 12 8 0xFF22222A (-1)
     (by decide) (by decide) (by decide) (by decide) (by decide) (by decide) (by decide)).1⟩

/-! ### Emitter (claim C8) -/

/-- A rectangle primitive of the render list. -/
structure Rectangle where
  left : Int
  top : Int
  right : Int
  bottom : Int
  color : Nat
deriving Repr, DecidableEq

/-- A text primitive of the render list. -/
structure TextPrim where
  x : Int
  y : Int
  w : Int
  h : Int
  color : Nat
  text : List Nat
  font_size : Int
  align_h : Int
  align_v : Int
deriving Repr, DecidableEq

/-- `UI_Render_List`: bounded lists of rectangle and text primitives. -/
structure RenderList where
  rectangles : List Rectangle
  texts : List TextPrim
deriving Repr, DecidableEq

def MAX_UI_RECTANGLES : Nat := 256
def MAX_UI_TEXTS : Nat := 256

/-- `UI_AddRectangle`: silently dropped once the rectangle list is full. -/
def UI_AddRectangle (rl : RenderList) (l t r b : Int) (color : Nat) : RenderList :=
  if rl.rectangles.length ≥ MAX_UI_RECTANGLES then rl
  else { rl with rectangles := rl.rectangles ++ [⟨l, t, r, b, color⟩] }

/-- `UI_AddText`: silently dropped once the text list is full; the copied
text is truncated to `MAX_UI_TEXT_LENGTH - 1` bytes. -/
def UI_AddText (rl : RenderList) (x y w h : Int) (txt : List Nat) (color : Nat)
    (fontSize alignH alignV : Int) : RenderList :=
  if rl.texts.length ≥ MAX_UI_TEXTS then rl
  else { rl with texts := rl.texts ++
    [⟨x, y, w, h, color, txt.take (MAX_UI_TEXT_LENGTH - 1), fontSize, alignH, alignV⟩] }

mutual
/-- `UI_EmitPanels`: emit this panel's rectangle (skipped only when the
panel is a label AND fully transparent), then its text if it is a label
with nonempty text, then recurse into the children in order. -/
def UI_EmitPanels (rl : RenderList) : Panel → RenderList
  | .node st r lbl txt lc cs =>
    let rl1 :=
      if !(lbl && st.color == 0) then
        UI_AddRectangle rl r.x r.y (r.x + r.w) (r.y + r.h) st.color
      else rl
    let rl2 :=
      if lbl && !(txt == []) then UI_AddText rl1 r.x r.y r.w r.h txt lc 14 0 1 else rl1
    emitKids rl2 cs

/-- Emit each child in order, threading the render list. -/
def emitKids (rl : RenderList) : List Panel → RenderList
  | [] => rl
  | c :: cs => emitKids (UI_EmitPanels rl c) cs
end

mutual
/-- Pre-order listing of a tree's panels (parent before children), as the
specification describes the emitter's walk. -/
def preorder : Panel → List Panel
  | .node st r lbl txt lc cs => Panel.node st r lbl txt lc cs :: preorderKids cs

def preorderKids : List Panel → List Panel
  | [] => []
  | c :: cs => preorder c ++ preorderKids cs
end

/-- Whether a panel contributes a rectangle: everything except a fully
transparent label. -/
def emitsRect (p : Panel) : Bool := !(p.isLabel && p.style.color == 0)

/-- The rectangle primitive a panel contributes. -/
def panelRectPrim (p : Panel) : Rectangle :=
  ⟨p.rect.x, p.rect.y, p.rect.x + p.rect.w, p.rect.y + p.rect.h, p.style.color⟩

theorem UI_AddText_rectangles (rl : RenderList) (x y w h : Int) (txt : List Nat)
    (color : Nat) (fontSize alignH alignV : Int) :
    (UI_AddText rl x y w h txt color fontSize alignH alignV).rectangles = rl.rectangles := by
  unfold UI_AddText
  split <;> rfl

/-- Chaining two capacity-bounded appends is one capacity-bounded append
of the concatenation. -/
theorem take_chain (base A B : List Rectangle) (cap : Nat) :
    (base ++ A.take (cap - base.length))
        ++ B.take (cap - (base ++ A.take (cap - base.length)).length)
      = base ++ (A ++ B).take (cap - base.length) := by
  rw [List.take_append_eq_append_take, List.append_assoc]
  have harg : cap - (base ++ A.take (cap - base.length)).length
      = (cap - base.length) - A.length := by
    simp only [List.length_append, List.length_take]
    omega
  rw [harg]

theorem emitKids_rects_of (cs : List Panel) (rl : RenderList)
    (hel : ∀ c ∈ cs, ∀ rl' : RenderList, (UI_EmitPanels rl' c).rectangles
      = rl'.rectangles ++ (((preorder c).filter emitsRect).map panelRectPrim).take
          (MAX_UI_RECTANGLES - rl'.rectangles.length)) :
    (emitKids rl cs).rectangles
      = rl.rectangles ++ (((preorderKids cs).filter emitsRect).map panelRectPrim).take
          (MAX_UI_RECTANGLES - rl.rectangles.length) := by
  induction cs generalizing rl with
  | nil => simp [emitKids, preorderKids]
  | cons c cs ih =>
    simp only [emitKids, preorderKids, List.filter_append, List.map_append]
    rw [ih (UI_EmitPanels rl c) (fun x hx => hel x (List.mem_cons_of_mem c hx))]
    rw [hel c (List.mem_cons_self c cs) rl]
    exact take_chain rl.rectangles _ _ MAX_UI_RECTANGLES

theorem emit_rects_aux : ∀ (n : Nat) (p : Panel), sizeOf p ≤ n → ∀ rl : RenderList,
    (UI_EmitPanels rl p).rectangles
      = rl.rectangles ++ (((preorder p).filter emitsRect).map panelRectPrim).take
          (MAX_UI_RECTANGLES - rl.rectangles.length) := by
  intro n
  induction n with
  | zero =>
    intro p hp
    cases p with
    | node st r lbl txt lc cs => simp at hp
  | succ n ih =>
    intro p hp rl
    cases p with
    | node st r lbl txt lc cs =>
      have hsz : sizeOf cs ≤ n := by
        have := Panel.node.sizeOf_spec st r lbl txt lc cs
        omega
      have hel : ∀ c ∈ cs, ∀ rl' : RenderList, (UI_EmitPanels rl' c).rectangles
          = rl'.rectangles ++ (((preorder c).filter emitsRect).map panelRectPrim).take
              (MAX_UI_RECTANGLES - rl'.rectangles.length) := by
        intro c hc rl'
        exact ih c (by have := List.sizeOf_lt_of_mem hc; omega) rl'
      simp only [UI_EmitPanels]
      rw [emitKids_rects_of cs _ hel]
      have hrl2 : (if lbl && !(txt == []) then
            UI_AddText (if !(lbl && st.color == 0) then
              UI_AddRectangle rl r.x r.y (r.x + r.w) (r.y + r.h) st.color else rl)
              r.x r.y r.w r.h txt lc 14 0 1
          else (if !(lbl && st.color == 0) then
            UI_AddRectangle rl r.x r.y (r.x + r.w) (r.y + r.h) st.color else rl)).rectangles
          = (if !(lbl && st.color == 0) then
            UI_AddRectangle rl r.x r.y (r.x + r.w) (r.y + r.h) st.color else rl).rectangles := by
        split
        · rw [UI_AddText_rectangles]
        · rfl
      rw [hrl2]
      simp only [preorder, List.filter_cons]
      have hemits : emitsRect (Panel.node st r lbl txt lc cs) = !(lbl && st.color == 0) := rfl
      rw [hemits]
      cases hb : (lbl && st.color == 0) with
      | true =>
        simp only [Bool.not_true, Bool.false_eq_true, if_false]
      | false =>
        simp only [Bool.not_false, eq_self_iff_true, if_true, List.map_cons]
        by_cases hn : rl.rectangles.length ≥ MAX_UI_RECTANGLES
        · rw [UI_AddRectangle, if_pos hn]
          have h1 : MAX_UI_RECTANGLES - rl.rectangles.length = 0 := by omega
          rw [h1]
          simp
        · rw [UI_AddRectangle, if_neg hn]
          have h1 : MAX_UI_RECTANGLES - rl.rectangles.length
              = (MAX_UI_RECTANGLES - rl.rectangles.length - 1) + 1 := by
            simp only [MAX_UI_RECTANGLES] at hn ⊢
            omega
          rw [h1, List.take_succ_cons]
          simp only [List.length_append, List.length_cons, List.length_nil]
          rw [List.append_assoc, List.singleton_append]
          have h2 : MAX_UI_RECTANGLES - (rl.rectangles.length + 1)
              = MAX_UI_RECTANGLES - rl.rectangles.length - 1 := by omega
          rw [h2]
          rfl

/-- C8 counterexample: a fully transparent (color 0x00000000) panel that
is NOT a label still gets a rectangle emitted for it — the emitter skips
only transparent labels, so "no rectangle appended for it, whether or not
it is a label" fails. -/
theorem C8_counterexample :
    (UI_EmitPanels ⟨[], []⟩ (Panel.node { UI_Default_Panel_Style with color := 0 }
        ⟨0, 0, 10, 10⟩ false [] 0 [])).rectangles = [⟨0, 0, 10, 10, 0⟩] := by decide

/-- C8 (amended): the emitter walks the laid-out tree in pre-order and
appends a rectangle primitive at each panel's rect with its color for
every panel EXCEPT fully transparent labels (a fully transparent
non-label panel still gets a rectangle), truncated at the 256-rectangle
render-list capacity. -/
theorem C8_emit_rectangles (p : Panel) :
    (UI_EmitPanels ⟨[], []⟩ p).rectangles
      = (((preorder p).filter emitsRect).map panelRectPrim).take MAX_UI_RECTANGLES := by
  rw [emit_rects_aux (sizeOf p) p (le_refl _) ⟨[], []⟩]
  rfl

end UIEngine
